import Mathlib

/-!
Verification of the YouTube-tracker repository (collector `fetch_stats.py`,
dashboard `app.py`, helpers `utils.py`) against its natural-language
specification.

The embedding below is a shallow one:

* a snapshot row of the historical CSV becomes the structure `SnapRow`
  (calendar dates are represented by natural numbers: ISO date strings
  compare lexicographically exactly as the corresponding day numbers do;
  the purely descriptive metadata columns `title`, `channel_title`,
  `published_at`, `thumbnail_url`, `video_url` ride along unchanged through
  every operation the claims are about and are therefore not carried);
* `pandas` frame operations become list transformations: `sort_values` is
  modelled by a stable sort (`List.insertionSort`), `drop_duplicates(...,
  keep="last")` by `dedupLastKey`, `groupby(...).diff()` on a frame sorted
  by `(video_id, date)` by a linear walk that differences against the
  previous row exactly when it carries the same `video_id`;
* the network layer of the collector is modelled by an oracle giving the
  outcome of each attempt, and the filesystem by explicit state passing.
-/

set_option maxHeartbeats 1000000

namespace YtTracker

/-- Lexicographic strict comparison of character lists, the order in which
`pandas` sorts the `video_id` string column. -/
def strLtB : List Char → List Char → Bool
  | [], [] => false
  | [], _ :: _ => true
  | _ :: _, [] => false
  | a :: as, b :: bs => if a < b then true else if b < a then false else strLtB as bs

theorem strLtB_irrefl : ∀ l : List Char, strLtB l l = false
  | [] => rfl
  | a :: as => by
    simp only [strLtB, lt_irrefl, if_false]
    exact strLtB_irrefl as

theorem strLtB_trans : ∀ {l1 l2 l3 : List Char},
    strLtB l1 l2 = true → strLtB l2 l3 = true → strLtB l1 l3 = true
  | [], [], _, h1, _ => by cases h1
  | [], _ :: _, [], _, h2 => by cases h2
  | [], _ :: _, _ :: _, _, _ => rfl
  | _ :: _, [], _, h1, _ => by cases h1
  | _ :: _, _ :: _, [], _, h2 => by cases h2
  | a :: as, b :: bs, c :: cs, h1, h2 => by
    simp only [strLtB] at h1 h2 ⊢
    by_cases hab : a < b
    · by_cases hbc : b < c
      · rw [if_pos (hab.trans hbc)]
      · by_cases hcb : c < b
        · rw [if_neg hbc, if_pos hcb] at h2
          cases h2
        · have hbc' : b = c := le_antisymm (not_lt.mp hcb) (not_lt.mp hbc)
          rw [if_pos (hbc' ▸ hab)]
    · by_cases hba : b < a
      · rw [if_neg hab, if_pos hba] at h1
        cases h1
      · have hab' : a = b := le_antisymm (not_lt.mp hba) (not_lt.mp hab)
        subst hab'
        rw [if_neg hab, if_neg hba] at h1
        by_cases hac : a < c
        · rw [if_pos hac]
        · by_cases hca : c < a
          · rw [if_neg hac, if_pos hca] at h2
            cases h2
          · rw [if_neg hac, if_neg hca] at h2 ⊢
            exact strLtB_trans h1 h2

theorem strLtB_trichotomy : ∀ l1 l2 : List Char,
    strLtB l1 l2 = true ∨ l1 = l2 ∨ strLtB l2 l1 = true
  | [], [] => Or.inr (Or.inl rfl)
  | [], _ :: _ => Or.inl rfl
  | _ :: _, [] => Or.inr (Or.inr rfl)
  | a :: as, b :: bs => by
    rcases lt_trichotomy a b with h | h | h
    · exact Or.inl (by simp only [strLtB, if_pos h])
    · subst h
      rcases strLtB_trichotomy as bs with h' | h' | h'
      · exact Or.inl (by simp only [strLtB, lt_irrefl, if_false]; exact h')
      · exact Or.inr (Or.inl (by rw [h']))
      · exact Or.inr (Or.inr (by simp only [strLtB, lt_irrefl, if_false]; exact h'))
    · exact Or.inr (Or.inr (by simp only [strLtB, if_pos h]))

theorem strLtB_asymm {l1 l2 : List Char}
    (h1 : strLtB l1 l2 = true) (h2 : strLtB l2 l1 = true) : False := by
  have := strLtB_trans h1 h2
  rw [strLtB_irrefl] at this
  cases this

/-- Strict order on video identifiers, read off their character data. -/
def vidLt (a b : String) : Prop := strLtB a.data b.data = true

instance : DecidableRel vidLt := fun a b =>
  inferInstanceAs (Decidable (strLtB a.data b.data = true))

theorem stringDataEq : ∀ {a b : String}, a.data = b.data → a = b := by
  intro a b h
  cases a
  cases b
  cases h
  rfl

/-- One snapshot row of `data/history.csv`: one observation of one video on
one calendar day (counter columns `views`, `likes`, `comments`; the key is
`(video_id, date)`). -/
structure SnapRow where
  video_id : String
  date : Nat
  views : Int
  likes : Int
  comments : Int
deriving DecidableEq, Repr

/-- The `(video_id, date)` key a row is sorted and deduplicated by. -/
def rowKey (r : SnapRow) : String × Nat := (r.video_id, r.date)

/-- The ordering used by `sort_values(["video_id", "date"])`: lexicographic
on the `(video_id, date)` key. -/
def keyLe (a b : SnapRow) : Prop :=
  vidLt a.video_id b.video_id ∨ (a.video_id = b.video_id ∧ a.date ≤ b.date)

instance : DecidableRel keyLe := fun a b =>
  inferInstanceAs
    (Decidable (vidLt a.video_id b.video_id ∨
      (a.video_id = b.video_id ∧ a.date ≤ b.date)))

instance : IsTotal SnapRow keyLe where
  total a b := by
    rcases strLtB_trichotomy a.video_id.data b.video_id.data with h | h | h
    · exact Or.inl (Or.inl h)
    · rcases Nat.le_total a.date b.date with hd | hd
      · exact Or.inl (Or.inr ⟨stringDataEq h, hd⟩)
      · exact Or.inr (Or.inr ⟨(stringDataEq h).symm, hd⟩)
    · exact Or.inr (Or.inl h)

instance : IsTrans SnapRow keyLe where
  trans a b c hab hbc := by
    rcases hab with h1 | ⟨e1, d1⟩
    · rcases hbc with h2 | ⟨e2, d2⟩
      · exact Or.inl (strLtB_trans h1 h2)
      · exact Or.inl (e2 ▸ h1)
    · rcases hbc with h2 | ⟨e2, d2⟩
      · exact Or.inl (e1 ▸ h2)
      · exact Or.inr ⟨e1.trans e2, d1.trans d2⟩

theorem vidLt_irrefl (s : String) : ¬ vidLt s s := by
  unfold vidLt
  rw [strLtB_irrefl]
  exact Bool.false_ne_true

theorem keyLe_of_rowKey_eq {a b : SnapRow} (h : rowKey a = rowKey b) :
    keyLe a b := by
  unfold rowKey at h
  exact Or.inr ⟨congrArg Prod.fst h, Nat.le_of_eq (congrArg Prod.snd h)⟩

theorem rowKey_eq_of_keyLe_of_keyLe {a b : SnapRow}
    (hab : keyLe a b) (hba : keyLe b a) : rowKey a = rowKey b := by
  rcases hab with h1 | ⟨e1, d1⟩
  · rcases hba with h2 | ⟨e2, d2⟩
    · exact absurd (strLtB_trans h1 h2) (vidLt_irrefl a.video_id)
    · exact absurd (e2 ▸ h1) (vidLt_irrefl a.video_id)
  · rcases hba with h2 | ⟨e2, d2⟩
    · exact absurd (e1 ▸ h2) (vidLt_irrefl b.video_id)
    · unfold rowKey
      rw [e1, Nat.le_antisymm d1 d2]

/-- `drop_duplicates(subset=["video_id", "date"], keep="last")`: a row is
kept exactly when no later row carries the same `(video_id, date)` key. -/
def dedupLastKey : List SnapRow → List SnapRow
  | [] => []
  | r :: rest =>
    if rest.any (fun x => decide (rowKey x = rowKey r)) then dedupLastKey rest
    else r :: dedupLastKey rest

/-- Merge step of `fetch_stats.main` (its last lines): when the existing
table is non-empty, the newly fetched rows are concatenated after it, the
result is sorted by `(video_id, date)` and deduplicated on that key keeping
the last occurrence; when the table is empty or absent the new frame is
taken as is. -/
def mergeHistory (oldRows newRows : List SnapRow) : List SnapRow :=
  if oldRows.isEmpty then newRows
  else dedupLastKey (List.insertionSort keyLe (oldRows ++ newRows))

example :
    mergeHistory [⟨"a", 1, 5, 0, 0⟩]
      [⟨"a", 1, 7, 0, 0⟩, ⟨"a", 2, 9, 0, 0⟩] =
      [⟨"a", 1, 7, 0, 0⟩, ⟨"a", 2, 9, 0, 0⟩] := by decide

example :
    mergeHistory [⟨"b", 1, 5, 0, 0⟩]
      [⟨"a", 1, 7, 0, 0⟩] =
      [⟨"a", 1, 7, 0, 0⟩, ⟨"b", 1, 5, 0, 0⟩] := by decide

/-- Selecting rows carrying a given `(video_id, date)` key. -/
def hasKeyB (k : String × Nat) (r : SnapRow) : Bool := decide (rowKey r = k)

/-- The last element of a list, as a zero-or-one element list. -/
def lastOne : List SnapRow → List SnapRow
  | [] => []
  | [a] => [a]
  | _ :: b :: rest => lastOne (b :: rest)

theorem lastOne_cons_of_ne_nil (a : SnapRow) {l : List SnapRow} (h : l ≠ []) :
    lastOne (a :: l) = lastOne l := by
  cases l with
  | nil => exact absurd rfl h
  | cons b rest => rfl

theorem lastOne_shape (l : List SnapRow) :
    lastOne l = [] ∨ ∃ a, lastOne l = [a] := by
  induction l with
  | nil => exact Or.inl rfl
  | cons a rest ih =>
    cases rest with
    | nil => exact Or.inr ⟨a, rfl⟩
    | cons b r2 => exact ih

theorem lastOne_mem {l : List SnapRow} {a : SnapRow} (h : lastOne l = [a]) :
    a ∈ l := by
  induction l with
  | nil => cases h
  | cons b rest ih =>
    cases rest with
    | nil =>
      cases h
      exact List.mem_singleton_self a
    | cons c r2 =>
      rw [lastOne_cons_of_ne_nil b (List.cons_ne_nil c r2)] at h
      exact List.mem_cons_of_mem b (ih h)

theorem lastOne_append {xs ys : List SnapRow} (h : ys ≠ []) :
    lastOne (xs ++ ys) = lastOne ys := by
  induction xs with
  | nil => rfl
  | cons a xs ih =>
    rw [List.cons_append, lastOne_cons_of_ne_nil a, ih]
    intro hc
    rcases List.append_eq_nil.mp hc with ⟨-, h2⟩
    exact h h2

theorem lastOne_lastOne (l : List SnapRow) : lastOne (lastOne l) = lastOne l := by
  rcases lastOne_shape l with h | ⟨a, h⟩ <;> rw [h] <;> rfl

theorem dedupLastKey_sublist : ∀ l : List SnapRow, List.Sublist (dedupLastKey l) l
  | [] => List.Sublist.refl []
  | r :: rest => by
    rw [dedupLastKey]
    split
    · exact (dedupLastKey_sublist rest).cons r
    · exact (dedupLastKey_sublist rest).cons₂ r

theorem dedupLastKey_filter (k : String × Nat) :
    ∀ l : List SnapRow,
      (dedupLastKey l).filter (hasKeyB k) = lastOne (l.filter (hasKeyB k))
  | [] => rfl
  | r :: rest => by
    rw [dedupLastKey]
    by_cases hk : rowKey r = k
    · by_cases hdup : rest.any (fun x => decide (rowKey x = rowKey r)) = true
      · rw [if_pos hdup, dedupLastKey_filter k rest,
          List.filter_cons_of_pos (by simp [hasKeyB, hk])]
        rcases List.any_eq_true.mp hdup with ⟨x, hx, hxk⟩
        have hxk' : rowKey x = k := hk ▸ of_decide_eq_true hxk
        have hmem : x ∈ rest.filter (hasKeyB k) :=
          List.mem_filter.mpr ⟨hx, by simp [hasKeyB, hxk']⟩
        rw [lastOne_cons_of_ne_nil r (List.ne_nil_of_mem hmem)]
      · rw [if_neg hdup, List.filter_cons_of_pos (by simp [hasKeyB, hk]),
          List.filter_cons_of_pos (by simp [hasKeyB, hk]),
          dedupLastKey_filter k rest]
        have hnil : rest.filter (hasKeyB k) = [] := by
          rw [List.filter_eq_nil_iff]
          intro x hx hpx
          exact hdup (List.any_eq_true.mpr
            ⟨x, hx, by simp [hasKeyB, hk] at hpx ⊢; exact hpx⟩)
        rw [hnil]
        rfl
    · have hfr : hasKeyB k r = false := by
        simp [hasKeyB, hk]
      by_cases hdup : rest.any (fun x => decide (rowKey x = rowKey r)) = true
      · rw [if_pos hdup, dedupLastKey_filter k rest,
          List.filter_cons_of_neg (by simp [hfr])]
      · rw [if_neg hdup, List.filter_cons_of_neg (by simp [hfr]),
          List.filter_cons_of_neg (by simp [hfr]), dedupLastKey_filter k rest]

theorem dedupLastKey_pairwise :
    ∀ l : List SnapRow,
      (dedupLastKey l).Pairwise (fun a b => rowKey a ≠ rowKey b)
  | [] => List.Pairwise.nil
  | r :: rest => by
    rw [dedupLastKey]
    by_cases hdup : rest.any (fun x => decide (rowKey x = rowKey r)) = true
    · rw [if_pos hdup]
      exact dedupLastKey_pairwise rest
    · rw [if_neg hdup]
      refine List.Pairwise.cons ?_ (dedupLastKey_pairwise rest)
      intro x hx he
      exact hdup (List.any_eq_true.mpr
        ⟨x, (dedupLastKey_sublist rest).mem hx, by simp [he]⟩)

theorem dedupLastKey_ne_nil : ∀ {l : List SnapRow}, l ≠ [] → dedupLastKey l ≠ []
  | [], h => absurd rfl h
  | r :: rest, _ => by
    rw [dedupLastKey]
    by_cases hdup : rest.any (fun x => decide (rowKey x = rowKey r)) = true
    · rw [if_pos hdup]
      have hrest : rest ≠ [] := by
        rcases List.any_eq_true.mp hdup with ⟨x, hx, -⟩
        exact List.ne_nil_of_mem hx
      exact dedupLastKey_ne_nil hrest
    · rw [if_neg hdup]
      exact List.cons_ne_nil _ _

theorem pairwiseOfMem {α : Type} {R : α → α → Prop} :
    ∀ l : List α, (∀ a ∈ l, ∀ b ∈ l, R a b) → l.Pairwise R
  | [], _ => List.Pairwise.nil
  | a :: l, h =>
    List.Pairwise.cons
      (fun b hb => h a (List.mem_cons_self a l) b (List.mem_cons_of_mem a hb))
      (pairwiseOfMem l (fun x hx y hy =>
        h x (List.mem_cons_of_mem a hx) y (List.mem_cons_of_mem a hy)))

theorem sublist_filter_of_forall {α : Type} {p : α → Bool} :
    ∀ {s t : List α}, List.Sublist s t → (∀ a ∈ s, p a = true) → List.Sublist s (t.filter p) := by
  intro s t hsub
  induction hsub with
  | slnil =>
    intro _
    exact List.nil_sublist _
  | cons a h ih =>
    intro hp
    rw [List.filter_cons]
    split
    · exact (ih hp).cons a
    · exact ih hp
  | cons₂ a h ih =>
    intro hp
    rw [List.filter_cons, if_pos (hp a (List.mem_cons_self _ _))]
    exact (ih (fun x hx => hp x (List.mem_cons_of_mem a hx))).cons₂ a

theorem insertionSort_filter_key (k : String × Nat) (l : List SnapRow) :
    (List.insertionSort keyLe l).filter (hasKeyB k) = l.filter (hasKeyB k) := by
  have hperm := (List.perm_insertionSort keyLe l).filter (hasKeyB k)
  have hpair : (l.filter (hasKeyB k)).Pairwise keyLe :=
    pairwiseOfMem _ (by
      intro a ha b hb
      have hka := of_decide_eq_true (List.mem_filter.mp ha).2
      have hkb := of_decide_eq_true (List.mem_filter.mp hb).2
      exact keyLe_of_rowKey_eq (by rw [hka, hkb]))
  have h1 : List.Sublist (l.filter (hasKeyB k)) (List.insertionSort keyLe l) :=
    List.sublist_insertionSort hpair (List.filter_sublist l)
  have h2 : List.Sublist (l.filter (hasKeyB k)) ((List.insertionSort keyLe l).filter (hasKeyB k)) :=
    sublist_filter_of_forall h1 (fun a ha => (List.mem_filter.mp ha).2)
  exact (h2.eq_of_length hperm.length_eq.symm).symm

theorem mergeHistory_ne_nil {oldRows newRows : List SnapRow} (h : oldRows ≠ []) :
    mergeHistory oldRows newRows ≠ [] := by
  rw [mergeHistory, if_neg (by simpa [List.isEmpty_iff] using h)]
  apply dedupLastKey_ne_nil
  intro hc
  have := (List.perm_insertionSort keyLe (oldRows ++ newRows)).length_eq
  rw [hc] at this
  rcases List.append_eq_nil.mp (List.eq_nil_of_length_eq_zero this.symm) with ⟨h1, -⟩
  exact h h1

theorem mergeHistory_filter (k : String × Nat) (oldRows newRows : List SnapRow)
    (h : oldRows ≠ []) :
    (mergeHistory oldRows newRows).filter (hasKeyB k) =
      lastOne ((oldRows ++ newRows).filter (hasKeyB k)) := by
  rw [mergeHistory, if_neg (by simpa [List.isEmpty_iff] using h),
    dedupLastKey_filter, insertionSort_filter_key]

theorem mem_mergeHistory {r : SnapRow} {oldRows newRows : List SnapRow}
    (h : oldRows ≠ []) :
    r ∈ mergeHistory oldRows newRows ↔
      lastOne ((oldRows ++ newRows).filter (hasKeyB (rowKey r))) = [r] := by
  constructor
  · intro hr
    have hm : r ∈ (mergeHistory oldRows newRows).filter (hasKeyB (rowKey r)) :=
      List.mem_filter.mpr ⟨hr, by simp [hasKeyB]⟩
    rw [mergeHistory_filter _ _ _ h] at hm
    rcases lastOne_shape ((oldRows ++ newRows).filter (hasKeyB (rowKey r))) with
      h0 | ⟨a, ha⟩
    · rw [h0] at hm
      cases hm
    · rw [ha] at hm ⊢
      rw [List.mem_singleton] at hm
      rw [hm]
  · intro hl
    have hm : r ∈ (mergeHistory oldRows newRows).filter (hasKeyB (rowKey r)) := by
      rw [mergeHistory_filter _ _ _ h, hl]
      exact List.mem_singleton_self r
    exact (List.mem_filter.mp hm).1

/-- Strict version of the sort key order: at most one row per key means the
merged table is strictly increasing in `(video_id, date)`. -/
def keyLt (a b : SnapRow) : Prop := keyLe a b ∧ rowKey a ≠ rowKey b

theorem mergeHistory_pairwise_keyLt {oldRows newRows : List SnapRow}
    (h : oldRows ≠ []) :
    (mergeHistory oldRows newRows).Pairwise keyLt := by
  rw [mergeHistory, if_neg (by simpa [List.isEmpty_iff] using h)]
  have hle : (dedupLastKey (List.insertionSort keyLe (oldRows ++ newRows))).Pairwise keyLe :=
    (List.sorted_insertionSort keyLe (oldRows ++ newRows)).sublist
      (dedupLastKey_sublist _)
  exact (hle.and (dedupLastKey_pairwise _))

theorem eq_of_pairwise_keyLt {l₁ l₂ : List SnapRow}
    (h₁ : l₁.Pairwise keyLt) (h₂ : l₂.Pairwise keyLt)
    (hm : ∀ r, r ∈ l₁ ↔ r ∈ l₂) : l₁ = l₂ := by
  have nd₁ : l₁.Nodup := h₁.imp (fun hab he => hab.2 (congrArg rowKey he))
  have nd₂ : l₂.Nodup := h₂.imp (fun hab he => hab.2 (congrArg rowKey he))
  have hperm : List.Perm l₁ l₂ := (List.perm_ext_iff_of_nodup nd₁ nd₂).mpr hm
  exact @List.eq_of_perm_of_sorted _ keyLt
    ⟨fun a b hab hba =>
      absurd (rowKey_eq_of_keyLe_of_keyLe hab.1 hba.1) hab.2⟩
    _ _ hperm h₁ h₂

theorem mergeHistory_eq_newRows (newRows : List SnapRow) :
    mergeHistory [] newRows = newRows := rfl

theorem mergeHistory_nodupKeys (oldRows newRows : List SnapRow)
    (hn : newRows.Pairwise (fun a b => rowKey a ≠ rowKey b)) :
    (mergeHistory oldRows newRows).Pairwise (fun a b => rowKey a ≠ rowKey b) := by
  rcases eq_or_ne oldRows [] with h | h
  · subst h
    rw [mergeHistory_eq_newRows]
    exact hn
  · rw [mergeHistory, if_neg (by simpa [List.isEmpty_iff] using h)]
    exact dedupLastKey_pairwise _

theorem mergeHistory_lastWriteWins (t n1 n2 : List SnapRow) (r2 : SnapRow)
    (k : String × Nat) (hn2 : n2.filter (hasKeyB k) = [r2]) :
    (mergeHistory (mergeHistory t n1) n2).filter (hasKeyB k) = [r2] := by
  rcases eq_or_ne (mergeHistory t n1) [] with hM | hM
  · rw [hM, mergeHistory_eq_newRows, hn2]
  · rw [mergeHistory_filter k _ _ hM, List.filter_append, hn2,
      lastOne_append (List.cons_ne_nil r2 [])]
    rfl

theorem mergeHistory_idem (t n : List SnapRow) (ht : t ≠ []) :
    mergeHistory (mergeHistory t n) n = mergeHistory t n := by
  have hM : mergeHistory t n ≠ [] := mergeHistory_ne_nil ht
  apply eq_of_pairwise_keyLt (mergeHistory_pairwise_keyLt hM)
    (mergeHistory_pairwise_keyLt ht)
  intro r
  rw [mem_mergeHistory hM, mem_mergeHistory ht, List.filter_append,
    mergeHistory_filter _ _ _ ht, List.filter_append]
  by_cases hn : n.filter (hasKeyB (rowKey r)) = []
  · rw [hn, List.append_nil, List.append_nil, lastOne_lastOne]
  · rw [lastOne_append hn, lastOne_append hn]

theorem filter_key_of_nodupKeys {n : List SnapRow} {r : SnapRow}
    (hn : n.Pairwise (fun a b => rowKey a ≠ rowKey b)) (hr : r ∈ n) :
    n.filter (hasKeyB (rowKey r)) = [r] := by
  induction n with
  | nil => cases hr
  | cons a rest ih =>
    rcases List.pairwise_cons.mp hn with ⟨ha, hrest⟩
    rcases List.mem_cons.mp hr with he | hm
    · subst he
      rw [List.filter_cons_of_pos (by simp [hasKeyB])]
      have hnil : rest.filter (hasKeyB (rowKey r)) = [] := by
        rw [List.filter_eq_nil_iff]
        intro x hx hpx
        exact ha x hx (of_decide_eq_true hpx).symm
      rw [hnil]
    · rw [List.filter_cons_of_neg, ih hrest hm]
      simp only [hasKeyB, decide_eq_true_eq]
      exact fun hc => ha r hm hc

theorem mergeHistory_empty_rerun_perm (n : List SnapRow)
    (hn : n.Pairwise (fun a b => rowKey a ≠ rowKey b)) :
    List.Perm (mergeHistory (mergeHistory [] n) n) (mergeHistory [] n) := by
  rw [mergeHistory_eq_newRows]
  rcases eq_or_ne n [] with h | h
  · subst h
    exact List.Perm.refl _
  · have hnd2 : n.Nodup := hn.imp (fun hab he => hab (congrArg rowKey he))
    have hnd1 : (mergeHistory n n).Nodup :=
      (mergeHistory_nodupKeys n n hn).imp (fun hab he => hab (congrArg rowKey he))
    apply (List.perm_ext_iff_of_nodup hnd1 hnd2).mpr
    intro r
    rw [mem_mergeHistory h, List.filter_append]
    constructor
    · intro hl
      rcases List.mem_append.mp (lastOne_mem hl) with h1 | h1 <;>
        exact (List.mem_filter.mp h1).1
    · intro hr
      rw [filter_key_of_nodupKeys hn hr]
      rfl

/-! ### Dashboard aggregation (`app.py`) -/

/-- Date-only order, used when a single video's history is sorted by `"date"`. -/
def dateLe (a b : SnapRow) : Prop := a.date ≤ b.date

instance : DecidableRel dateLe := fun a b =>
  inferInstanceAs (Decidable (a.date ≤ b.date))

instance : IsTotal SnapRow dateLe :=
  ⟨fun a b => Nat.le_total a.date b.date⟩

instance : IsTrans SnapRow dateLe :=
  ⟨fun _ _ _ => Nat.le_trans⟩

/-- Walk of `groupby("video_id")[col].diff().fillna(0)` with negatives then
clamped to zero, over a frame sorted by `(video_id, date)`: each row is
differenced against the immediately preceding row exactly when that row has
the same `video_id`; a group's first row gets `NaN`, filled with `0`. -/
def attachIncAux (m : SnapRow → Int) (prev : SnapRow) :
    List SnapRow → List (SnapRow × Int)
  | [] => []
  | r :: rest =>
    (r, if r.video_id = prev.video_id then max (m r - m prev) 0 else 0) ::
      attachIncAux m r rest

/-- The clamped increment column attached to every row of a sorted frame
(`app.py`, the `base_df` loop: `diff().fillna(0)` then `loc[inc < 0] = 0`). -/
def attachInc (m : SnapRow → Int) : List SnapRow → List (SnapRow × Int)
  | [] => []
  | r :: rest => (r, 0) :: attachIncAux m r rest

/-- `base_df`: the history filtered to the selected videos and sorted by
`(video_id, date)` (`app.py` top-KPI block). -/
def base_df (sel : String → Bool) (df : List SnapRow) : List SnapRow :=
  List.insertionSort keyLe (df.filter (fun r => sel r.video_id))

/-- `base_df` with its increment column for metric `m`. -/
def baseInc (m : SnapRow → Int) (sel : String → Bool) (df : List SnapRow) :
    List (SnapRow × Int) :=
  attachInc m (base_df sel df)

/-- Membership of a day in the closed range `[startD, endD]` (the code turns
the picked end date into `end + 1 day - 1 second`, i.e. the range is closed
at both ends at day granularity). -/
def inRangeB (startD endD d : Nat) : Bool := decide (startD ≤ d ∧ d ≤ endD)

/-- `interval_df`: the increment-carrying frame restricted to the selected
date range, after the increments were computed on the full history. -/
def interval_df (m : SnapRow → Int) (sel : String → Bool) (startD endD : Nat)
    (df : List SnapRow) : List (SnapRow × Int) :=
  (baseInc m sel df).filter (fun p => inRangeB startD endD p.1.date)

/-- The reported top-KPI interval increment
(`iv_views = int(interval_df["views_inc"].sum()) if not interval_df.empty else 0`). -/
def intervalTotal (m : SnapRow → Int) (sel : String → Bool) (startD endD : Nat)
    (df : List SnapRow) : Int :=
  if (interval_df m sel startD endD df).isEmpty then 0
  else ((interval_df m sel startD endD df).map (fun p => p.2)).sum

/-- First-difference walk over a single video's history, no group boundary
to reset at (negatives clamped). -/
def deltaAux (m : SnapRow → Int) (prev : SnapRow) :
    List SnapRow → List (SnapRow × Int)
  | [] => []
  | r :: rest => (r, max (m r - m prev) 0) :: deltaAux m r rest

/-- Clamped first-difference series of a single video's ordered history;
the first observation's delta is zero (no prior baseline). -/
def deltaClamped (m : SnapRow → Int) : List SnapRow → List (SnapRow × Int)
  | [] => []
  | r :: rest => (r, 0) :: deltaAux m r rest

/-- A single video's full (selected) snapshot history ordered by date. -/
def videoHist (v : String) (sel : String → Bool) (df : List SnapRow) :
    List SnapRow :=
  List.insertionSort dateLe
    ((df.filter (fun r => sel r.video_id)).filter (fun r => r.video_id == v))

/-- Modelled from the spec (§4.2 interval aggregation): the total increment
of one video over a closed range is the sum of the per-day clamped deltas
whose date falls in the range, the deltas being first differences over the
video's **full** ordered history (so the delta at the range boundary is the
true difference from the prior, possibly out-of-range, snapshot). -/
def specRangeTotal (m : SnapRow → Int) (v : String) (sel : String → Bool)
    (startD endD : Nat) (df : List SnapRow) : Int :=
  (((deltaClamped m (videoHist v sel df)).filter
      (fun p => inRangeB startD endD p.1.date)).map (fun p => p.2)).sum

/-- `show_df_for_chart`: history of the selected videos restricted to the
closed date range (`app.py` line with `hist_df` / `show_df_for_chart`). -/
def show_df_for_chart (sel : String → Bool) (startD endD : Nat)
    (df : List SnapRow) : List SnapRow :=
  (df.filter (fun r => sel r.video_id)).filter
    (fun r => inRangeB startD endD r.date)

/-- The sidebar's 数值模式 radio: cumulative (`累计`) or per-day increment
(`每日增量`). -/
inductive DisplayMode where
  | cumulative
  | incremental
deriving DecidableEq, Repr

/-- `cmp` after its sort: the range-filtered history of the videos picked
for comparison, sorted by `(video_id, date)`. -/
def cmpFrame (cmpSel sel : String → Bool) (startD endD : Nat)
    (df : List SnapRow) : List SnapRow :=
  List.insertionSort keyLe
    ((show_df_for_chart sel startD endD df).filter (fun r => cmpSel r.video_id))

/-- The `value` column of `cmp`: in incremental mode the groupby-diff clamped
increments computed on the **already range-filtered** frame, in cumulative
mode the metric itself. -/
def cmpValues (mode : DisplayMode) (m : SnapRow → Int) (cmpSel sel : String → Bool)
    (startD endD : Nat) (df : List SnapRow) : List (SnapRow × Int) :=
  match mode with
  | .incremental => attachInc m (cmpFrame cmpSel sel startD endD df)
  | .cumulative => (cmpFrame cmpSel sel startD endD df).map (fun r => (r, m r))

/-- One row of the 对比表格 comparison summary (the columns the claims are
about; the descriptive metadata columns and the rounded 日均值 average ride
along in the code and are not modelled). -/
structure SummaryRow where
  video_id : String
  first_dt : Nat
  last_dt : Nat
  metric_val : Int
  peak_val : Int
deriving DecidableEq, Repr

/-- The `groupby("video_id")` keys of the comparison frame: pandas iterates
only over keys that actually occur in `cmp`. -/
def summaryVids (mode : DisplayMode) (m : SnapRow → Int)
    (cmpSel sel : String → Bool) (startD endD : Nat) (df : List SnapRow) :
    List String :=
  ((cmpValues mode m cmpSel sel startD endD df).map
    (fun p => p.1.video_id)).dedup

/-- The `rows` loop building the comparison summary: one row per `groupby`
key; the group is re-sorted by date; in incremental mode the reported total
is the group's `value` sum and the peak its max, in cumulative mode the
total is the last `value` (`iloc[-1]`) and the peak the max. -/
def summaryRows (mode : DisplayMode) (m : SnapRow → Int)
    (cmpSel sel : String → Bool) (startD endD : Nat) (df : List SnapRow) :
    List SummaryRow :=
  (summaryVids mode m cmpSel sel startD endD df).map (fun v =>
    let g := List.insertionSort (fun p q : SnapRow × Int => p.1.date ≤ q.1.date)
      ((cmpValues mode m cmpSel sel startD endD df).filter
        (fun p => p.1.video_id == v))
    { video_id := v
      first_dt := ((g.map (fun p => p.1.date)).min?).getD 0
      last_dt := ((g.map (fun p => p.1.date)).max?).getD 0
      metric_val :=
        match mode with
        | .incremental => (g.map (fun p => p.2)).sum
        | .cumulative => ((g.map (fun p => p.2)).getLast?).getD 0
      peak_val := ((g.map (fun p => p.2)).max?).getD 0 })

/-- The single-video chart series of `vhist` (`app.py`, per-card chart):
`diff()` on the range-filtered values. -/
def diffValsAux (prev : Int) : List Int → List Int
  | [] => []
  | v :: rest => (v - prev) :: diffValsAux v rest

/-- `diff().fillna(0)` on a value series: first entry `NaN`, filled to 0. -/
def diffFillZero : List Int → List Int
  | [] => []
  | v :: rest => 0 :: diffValsAux v rest

/-- `vhist.loc[vhist["value"] < 0, "value"] = 0`. -/
def clampNonneg (l : List Int) : List Int :=
  l.map (fun x => if x < 0 then 0 else x)

/-- The per-video 每日增量 value series of `vhist`: first difference,
`NaN` filled with zero, negatives clamped to zero. -/
def deltaSeries (l : List Int) : List Int := clampNonneg (diffFillZero l)

example : deltaSeries [100, 150, 140, 200] = [0, 50, 0, 60] := by decide

theorem attachIncAux_fst_mem (m : SnapRow → Int) :
    ∀ (l : List SnapRow) (prev : SnapRow) (p : SnapRow × Int),
      p ∈ attachIncAux m prev l → p.1 ∈ l
  | [], _, _, h => by cases h
  | r :: rest, prev, p, h => by
    rcases List.mem_cons.mp h with he | hm
    · rw [he]
      exact List.mem_cons_self _ _
    · exact List.mem_cons_of_mem _ (attachIncAux_fst_mem m rest r p hm)

theorem attachInc_fst_mem (m : SnapRow → Int) {l : List SnapRow}
    {p : SnapRow × Int} (h : p ∈ attachInc m l) : p.1 ∈ l := by
  cases l with
  | nil => cases h
  | cons r rest =>
    rcases List.mem_cons.mp h with he | hm
    · rw [he]
      exact List.mem_cons_self _ _
    · exact List.mem_cons_of_mem _ (attachIncAux_fst_mem m rest r p hm)

theorem chain_forall_mem {r : SnapRow} {rest : List SnapRow}
    (h : List.Chain keyLe r rest) : ∀ x ∈ rest, keyLe r x :=
  (List.pairwise_cons.mp (List.chain_iff_pairwise.mp h)).1

theorem attachIncAux_filter (m : SnapRow → Int) (v : String) :
    ∀ (l : List SnapRow) (prev : SnapRow), List.Chain keyLe prev l →
      (attachIncAux m prev l).filter (fun p => p.1.video_id == v) =
        (if prev.video_id = v
         then deltaAux m prev (l.filter (fun r => r.video_id == v))
         else deltaClamped m (l.filter (fun r => r.video_id == v)))
  | [], prev, _ => by
    by_cases hp : prev.video_id = v <;>
      simp [attachIncAux, deltaAux, deltaClamped, hp]
  | r :: rest, prev, hc => by
    rcases List.chain_cons.mp hc with ⟨hpr, hrest⟩
    have ih := attachIncAux_filter m v rest r hrest
    by_cases hv : r.video_id = v
    · rw [attachIncAux, List.filter_cons_of_pos (by simp [hv]), ih, if_pos hv,
        List.filter_cons_of_pos (by simp [hv])]
      by_cases hp : prev.video_id = v
      · rw [if_pos hp, if_pos (hv.trans hp.symm), deltaAux]
      · rw [if_neg hp, if_neg (fun hc' => hp (hc'.symm.trans hv)), deltaClamped]
    · rw [attachIncAux, List.filter_cons_of_neg (by simp [hv]), ih, if_neg hv]
      by_cases hp : prev.video_id = v
      · rw [if_pos hp, List.filter_cons_of_neg (by simp [hv])]
        have hlt : vidLt v r.video_id := by
          rcases hpr with h1 | ⟨h1, -⟩
          · exact hp ▸ h1
          · exact absurd (h1.symm.trans hp) hv
        have hnil : rest.filter (fun x => x.video_id == v) = [] := by
          rw [List.filter_eq_nil_iff]
          intro x hx hpx
          have hxv : x.video_id = v := by simpa using hpx
          rcases chain_forall_mem hrest x hx with h2 | ⟨h2, -⟩
          · have h3 : vidLt v x.video_id := strLtB_trans hlt h2
            rw [hxv] at h3
            exact vidLt_irrefl v h3
          · have h3 : vidLt v x.video_id := by
              rw [← h2]
              exact hlt
            rw [hxv] at h3
            exact vidLt_irrefl v h3
        rw [hnil]
        rfl
      · rw [if_neg hp, List.filter_cons_of_neg (by simp [hv])]

theorem attachInc_filter (m : SnapRow → Int) (v : String) :
    ∀ l : List SnapRow, l.Pairwise keyLe →
      (attachInc m l).filter (fun p => p.1.video_id == v) =
        deltaClamped m (l.filter (fun r => r.video_id == v))
  | [], _ => rfl
  | r :: rest, hs => by
    have hc : List.Chain keyLe r rest := List.chain_iff_pairwise.mpr hs
    by_cases hv : r.video_id = v
    · rw [attachInc, List.filter_cons_of_pos (by simp [hv]),
        attachIncAux_filter m v rest r hc, if_pos hv,
        List.filter_cons_of_pos (by simp [hv]), deltaClamped]
    · rw [attachInc, List.filter_cons_of_neg (by simp [hv]),
        attachIncAux_filter m v rest r hc, if_neg hv,
        List.filter_cons_of_neg (by simp [hv])]

theorem filter_swap {α : Type} (p q : α → Bool) (l : List α) :
    (l.filter q).filter p = (l.filter p).filter q := by
  rw [List.filter_filter, List.filter_filter]
  exact List.filter_congr (fun a _ => Bool.and_comm _ _)

theorem sum_filter_not_add {α : Type} (p : α → Bool) (f : α → Int) :
    ∀ l : List α,
      ((l.filter p).map f).sum + ((l.filter (fun a => !(p a))).map f).sum =
        (l.map f).sum
  | [] => rfl
  | a :: l => by
    have ih := sum_filter_not_add p f l
    by_cases hpa : p a = true
    · rw [List.filter_cons_of_pos hpa,
        List.filter_cons_of_neg (by simp [hpa])]
      simp only [List.map_cons, List.sum_cons]
      omega
    · rw [List.filter_cons_of_neg hpa,
        List.filter_cons_of_pos (by simp [Bool.not_eq_true] at hpa ⊢; exact hpa)]
      simp only [List.map_cons, List.sum_cons]
      omega

theorem sum_by_groups {α : Type} (key : α → String) (f : α → Int) :
    ∀ (D : List String) (l : List α), D.Nodup → (∀ x ∈ l, key x ∈ D) →
      (D.map (fun v => ((l.filter (fun x => key x == v)).map f).sum)).sum =
        (l.map f).sum
  | [], l, _, hcov => by
    have hl : l = [] :=
      List.eq_nil_iff_forall_not_mem.mpr
        (fun x hx => (List.not_mem_nil (key x)) (hcov x hx))
    subst hl
    rfl
  | v :: D, l, hnd, hcov => by
    rcases List.pairwise_cons.mp hnd with ⟨hvD, hndD⟩
    have hcov' : ∀ x ∈ l.filter (fun x => !(key x == v)), key x ∈ D := by
      intro x hx
      rcases List.mem_filter.mp hx with ⟨hxl, hxv⟩
      rcases List.mem_cons.mp (hcov x hxl) with he | hm
      · rw [he] at hxv
        simp at hxv
      · exact hm
    have ih := sum_by_groups key f D (l.filter (fun x => !(key x == v))) hndD hcov'
    have hterm : ∀ v' ∈ D,
        ((l.filter (fun x => key x == v')).map f).sum =
          (((l.filter (fun x => !(key x == v))).filter
              (fun x => key x == v')).map f).sum := by
      intro v' hv'
      rw [List.filter_filter]
      congr 1
      apply congrArg
      apply List.filter_congr
      intro x _
      by_cases hx : key x = v'
      · have hne : ¬ v' = v := fun hc => hvD v' hv' hc.symm
        simp [hx, hne]
      · simp [hx]
    rw [List.map_cons, List.sum_cons, List.map_congr_left hterm, ih,
      sum_filter_not_add]

/-- Strict date order used to identify the two sorted presentations of a
single video's history. -/
def dateLt (a b : SnapRow) : Prop := a.date < b.date

theorem pairwise_dateLt_of_single_vid {v : String} {l : List SnapRow}
    (hle : l.Pairwise (fun a b => keyLe a b ∨ dateLe a b))
    (hne : l.Pairwise (fun a b => rowKey a ≠ rowKey b))
    (hv : ∀ r ∈ l, r.video_id = v) : l.Pairwise dateLt := by
  refine (hle.and hne).imp_of_mem ?_
  intro a b ha hb hab
  rcases hab with ⟨h1, h2⟩
  have hva := hv a ha
  have hvb := hv b hb
  have hled : a.date ≤ b.date := by
    rcases h1 with (h1 | ⟨-, h1⟩) | h1
    · exact absurd h1 (by
        rw [hva, hvb]
        exact vidLt_irrefl v)
    · exact h1
    · exact h1
  have hdne : a.date ≠ b.date := by
    intro hcon
    apply h2
    unfold rowKey
    rw [hva, hvb, hcon]
  exact lt_of_le_of_ne hled hdne

theorem base_df_filter_eq_videoHist (v : String) (sel : String → Bool)
    (df : List SnapRow)
    (hk : df.Pairwise (fun a b => rowKey a ≠ rowKey b)) :
    (base_df sel df).filter (fun r => r.video_id == v) = videoHist v sel df := by
  have hkL : (df.filter (fun r => sel r.video_id)).Pairwise
      (fun a b => rowKey a ≠ rowKey b) := hk.filter _
  have hsymm : ∀ {x y : SnapRow}, rowKey x ≠ rowKey y → rowKey y ≠ rowKey x :=
    fun h he => h he.symm
  have p1 : List.Perm ((base_df sel df).filter (fun r => r.video_id == v))
      ((df.filter (fun r => sel r.video_id)).filter (fun r => r.video_id == v)) :=
    (List.perm_insertionSort keyLe _).filter _
  have p2 : List.Perm (videoHist v sel df)
      ((df.filter (fun r => sel r.video_id)).filter (fun r => r.video_id == v)) :=
    List.perm_insertionSort dateLe _
  have hvA : ∀ r ∈ (base_df sel df).filter (fun r => r.video_id == v),
      r.video_id = v := by
    intro r hr
    simpa using (List.mem_filter.mp hr).2
  have hvB : ∀ r ∈ videoHist v sel df, r.video_id = v := by
    intro r hr
    have := p2.mem_iff.mp hr
    simpa using (List.mem_filter.mp this).2
  have hneA : ((base_df sel df).filter (fun r => r.video_id == v)).Pairwise
      (fun a b => rowKey a ≠ rowKey b) :=
    (((List.perm_insertionSort keyLe
        (df.filter (fun r => sel r.video_id))).pairwise_iff hsymm).mpr hkL).filter _
  have hneB : (videoHist v sel df).Pairwise (fun a b => rowKey a ≠ rowKey b) :=
    (p2.pairwise_iff hsymm).mpr (hkL.filter _)
  have hleA : ((base_df sel df).filter (fun r => r.video_id == v)).Pairwise
      (fun a b => keyLe a b ∨ dateLe a b) :=
    ((List.sorted_insertionSort keyLe
        (df.filter (fun r => sel r.video_id))).filter _).imp Or.inl
  have hleB : (videoHist v sel df).Pairwise (fun a b => keyLe a b ∨ dateLe a b) :=
    (List.sorted_insertionSort dateLe _).imp Or.inr
  exact @List.eq_of_perm_of_sorted _ dateLt
    ⟨fun a b h1 h2 => absurd (h1.trans h2) (lt_irrefl _)⟩
    _ _ (p1.trans p2.symm)
    (pairwise_dateLt_of_single_vid hleA hneA hvA)
    (pairwise_dateLt_of_single_vid hleB hneB hvB)

theorem intervalTotal_eq_sum (m : SnapRow → Int) (sel : String → Bool)
    (startD endD : Nat) (df : List SnapRow) :
    intervalTotal m sel startD endD df =
      ((interval_df m sel startD endD df).map (fun p => p.2)).sum := by
  rw [intervalTotal]
  split
  · next h =>
    rw [List.isEmpty_iff.mp h]
    rfl
  · rfl

theorem intervalTotal_eq_specSum (m : SnapRow → Int) (sel : String → Bool)
    (startD endD : Nat) (df : List SnapRow)
    (hk : df.Pairwise (fun a b => rowKey a ≠ rowKey b)) :
    intervalTotal m sel startD endD df =
      (((base_df sel df).map (fun r => r.video_id)).dedup.map
        (fun v => specRangeTotal m v sel startD endD df)).sum := by
  rw [intervalTotal_eq_sum]
  have hcov : ∀ p ∈ interval_df m sel startD endD df,
      p.1.video_id ∈ ((base_df sel df).map (fun r => r.video_id)).dedup := by
    intro p hp
    have hbase : p ∈ baseInc m sel df := (List.mem_filter.mp hp).1
    exact List.mem_dedup.mpr
      (List.mem_map.mpr ⟨p.1, attachInc_fst_mem m hbase, rfl⟩)
  have hgroups := sum_by_groups (fun p : SnapRow × Int => p.1.video_id)
    (fun p => p.2) ((base_df sel df).map (fun r => r.video_id)).dedup
    (interval_df m sel startD endD df) (List.nodup_dedup _) hcov
  rw [← hgroups]
  apply congrArg List.sum
  apply List.map_congr_left
  intro v _
  have hswap :
      (interval_df m sel startD endD df).filter (fun p => p.1.video_id == v) =
        ((baseInc m sel df).filter (fun p => p.1.video_id == v)).filter
          (fun p => inRangeB startD endD p.1.date) :=
    filter_swap _ _ _
  rw [hswap, baseInc,
    attachInc_filter m v (base_df sel df)
      (by rw [base_df]; exact List.sorted_insertionSort keyLe _),
    base_df_filter_eq_videoHist v sel df hk]
  rfl

example :
    (interval_df (fun r => r.views) (fun _ => true) 2 4
        [⟨"X", 1, 100, 0, 0⟩, ⟨"X", 2, 150, 0, 0⟩,
         ⟨"X", 3, 140, 0, 0⟩, ⟨"X", 4, 200, 0, 0⟩]).map (fun p => p.2) =
      [50, 0, 60] := by decide

example :
    summaryRows .cumulative (fun r => r.views) (fun _ => true) (fun _ => true)
        2 4
        [⟨"X", 1, 100, 0, 0⟩, ⟨"X", 2, 150, 0, 0⟩,
         ⟨"X", 3, 140, 0, 0⟩, ⟨"X", 4, 200, 0, 0⟩] =
      [⟨"X", 2, 4, 200, 200⟩] := by decide

example :
    (summaryRows .incremental (fun r => r.views) (fun _ => true) (fun _ => true)
        2 4
        [⟨"X", 1, 100, 0, 0⟩, ⟨"X", 2, 150, 0, 0⟩,
         ⟨"X", 3, 140, 0, 0⟩, ⟨"X", 4, 200, 0, 0⟩]).map
        (fun s => s.metric_val) = [60] := by decide

theorem mem_cmpFrame {r : SnapRow} {cmpSel sel : String → Bool}
    {startD endD : Nat} {df : List SnapRow}
    (h : r ∈ cmpFrame cmpSel sel startD endD df) :
    r ∈ df ∧ startD ≤ r.date ∧ r.date ≤ endD := by
  rw [cmpFrame] at h
  have h1 := (List.perm_insertionSort keyLe _).mem_iff.mp h
  have h2 := (List.mem_filter.mp h1).1
  rw [show_df_for_chart] at h2
  rcases List.mem_filter.mp h2 with ⟨h3, h4⟩
  exact ⟨(List.mem_filter.mp h3).1, by simpa [inRangeB] using h4⟩

theorem mem_cmpValues_fst {p : SnapRow × Int} {mode : DisplayMode}
    {m : SnapRow → Int} {cmpSel sel : String → Bool} {startD endD : Nat}
    {df : List SnapRow}
    (h : p ∈ cmpValues mode m cmpSel sel startD endD df) :
    p.1 ∈ cmpFrame cmpSel sel startD endD df := by
  cases mode with
  | incremental => exact attachInc_fst_mem m h
  | cumulative =>
    rcases List.mem_map.mp h with ⟨r, hr, he⟩
    rw [← he]
    exact hr

/-! ### Identifier extraction (`fetch_stats.py` and `utils.py`) -/

/-- The regex character class `[A-Za-z0-9_-]` (ASCII letters and digits,
underscore, hyphen). -/
def idChar (c : Char) : Bool := c.isAlpha || c.isDigit || c == '_' || c == '-'

/-- Python's `str.strip()`: leading and trailing whitespace removed. -/
def pyStrip (s : List Char) : List Char :=
  ((s.dropWhile Char.isWhitespace).reverse.dropWhile Char.isWhitespace).reverse

/-- `re.fullmatch(r"[A-Za-z0-9_-]{11}", s)`: a bare 11-character identifier. -/
def isBareId (s : List Char) : Bool := s.length == 11 && s.all idChar

/-- One pattern `<lit>([A-Za-z0-9_-]{11})` anchored at the head of `s`:
the literal must be a prefix and be followed by 11 class characters; the
11 captured characters are returned. -/
def matchCaptureHere (lit s : List Char) : Option (List Char) :=
  if lit.isPrefixOf s then
    let cap := (s.drop lit.length).take 11
    if cap.length == 11 && cap.all idChar then some cap else none
  else none

/-- `re.search` of `<lit>([A-Za-z0-9_-]{11})`: the leftmost position where
the pattern matches wins. -/
def searchCapture (lit : List Char) : List Char → Option (List Char)
  | [] => matchCaptureHere lit []
  | c :: rest =>
    match matchCaptureHere lit (c :: rest) with
    | some cap => some cap
    | none => searchCapture lit rest

/-- The literal part of the pattern `(?:v=)([A-Za-z0-9_-]{11})`. -/
def patV : List Char := "v=".toList

/-- The literal part of the pattern `youtu\.be/([A-Za-z0-9_-]{11})`. -/
def patYoutuBe : List Char := "youtu.be/".toList

/-- The literal part of the pattern `shorts/([A-Za-z0-9_-]{11})`. -/
def patShorts : List Char := "shorts/".toList

/-- The literal part of the pattern `embed/([A-Za-z0-9_-]{11})`. -/
def patEmbed : List Char := "embed/".toList

/-- The `_YT_PATTERNS` literals, in order: `v=`, `youtu.be/`, `shorts/`,
`embed/` (each followed by the 11-character capture group). -/
def ytPatternLits : List (List Char) :=
  [patV, patYoutuBe, patShorts, patEmbed]

/-- `utils.extract_video_id`: strip, try the bare-identifier full match,
then the URL patterns in order; `None` when nothing matches. -/
def utils_extract_video_id (url_or_id : String) : Option String :=
  let s := pyStrip url_or_id.toList
  if isBareId s then some (String.mk s)
  else (ytPatternLits.findSome? (fun lit => searchCapture lit s)).map String.mk

/-- `(url_or_id or "")`: `None` becomes the empty string (and the empty
string, the only falsy string, is itself replaced by the empty string). -/
def pyOrEmpty (x : Option String) : String :=
  match x with
  | none => ""
  | some s => s

/-- `fetch_stats.extract_video_id`: identical to the `utils` version except
that a null input is first coerced to the empty string. -/
def fetch_extract_video_id (url_or_id : Option String) : Option String :=
  let s := pyStrip (pyOrEmpty url_or_id).toList
  if isBareId s then some (String.mk s)
  else (ytPatternLits.findSome? (fun lit => searchCapture lit s)).map String.mk

example :
    utils_extract_video_id "https://www.youtube.com/watch?v=abcDEF12345" =
      some "abcDEF12345" := by decide

/-! ### Date-range coercion (`app.py` `coerce_date_range`) -/

/-- The value `st.date_input` hands to `coerce_date_range`: a list/tuple of
dates (possibly with empty slots) or a single date. -/
inductive PickedDates where
  | seq (l : List (Option Nat))
  | single (d : Option Nat)
deriving Repr

/-- `s or fallback`: a `datetime.date` is always truthy, so the fallback is
substituted exactly when the slot is `None`. -/
def pyOrDate (x : Option Nat) (fb : Nat) : Nat :=
  match x with
  | none => fb
  | some d => d

/-- `coerce_date_range` (`app.py`): a 2-tuple is taken as `(start, end)`, a
1-tuple duplicates its element, any other sequence falls back to the given
defaults, a single date duplicates; empty slots fall back; finally a
reversed pair is swapped. -/
def coerce_date_range (picked : PickedDates)
    (fallback_start fallback_end : Nat) : Nat × Nat :=
  let se : Option Nat × Option Nat :=
    match picked with
    | .seq [a, b] => (a, b)
    | .seq [a] => (a, a)
    | .seq _ => (some fallback_start, some fallback_end)
    | .single d => (d, d)
  let s := pyOrDate se.1 fallback_start
  let e := pyOrDate se.2 fallback_end
  if e < s then (e, s) else (s, e)

/-! ### Batch fetching with retry (`fetch_stats.get_video_items`) -/

/-- An error raised inside one attempt of the request loop. -/
inductive FetchErr where
  | timeout
  | connError
  | httpError (status : Nat)
  | otherErr
deriving DecidableEq, Repr

/-- Outcome of one HTTP attempt: a parsed `items` payload or an error. -/
inductive AttemptOutcome where
  | ok (items : List String)
  | fail (e : FetchErr)
deriving DecidableEq, Repr

/-- Which errors the loop swallows and retries: `Timeout`,
`ConnectionError` and any other exception are caught and remembered;
`HTTPError` (a 4xx/5xx response surfaced by `raise_for_status`) is
re-raised at once. -/
def isRetried : FetchErr → Bool
  | .httpError _ => false
  | _ => true

/-- `backoff = [0, 2, 5]`: three attempts, the delay slept before each. -/
def backoff : List Nat := [0, 2, 5]

instance {ε α : Type} [DecidableEq ε] [DecidableEq α] :
    DecidableEq (Except ε α) := fun a b =>
  match a, b with
  | .ok x, .ok y =>
    if h : x = y then isTrue (by rw [h])
    else isFalse (by intro hc; cases hc; exact h rfl)
  | .error x, .error y =>
    if h : x = y then isTrue (by rw [h])
    else isFalse (by intro hc; cases hc; exact h rfl)
  | .ok _, .error _ => isFalse (by intro hc; cases hc)
  | .error _, .ok _ => isFalse (by intro hc; cases hc)

/-- What one run of the retry loop did. -/
structure FetchRun where
  result : Except FetchErr (List String)
  sleeps : List Nat
  attempts : Nat
deriving DecidableEq, Repr

/-- The retry loop of `get_video_items`: walk the backoff schedule,
sleeping `delay` seconds when it is nonzero before the attempt; a success
returns the items; a retriable error is remembered in `last_err` and the
loop continues; an `HTTPError` is raised immediately; an exhausted schedule
raises the last remembered error (`return []` is reached only if no attempt
ever ran). The attempt outcomes are supplied by `oracle`. -/
def runAttempts (oracle : Nat → AttemptOutcome) :
    List Nat → Nat → Option FetchErr → FetchRun
  | [], n, lastErr =>
    { result :=
        match lastErr with
        | some e => Except.error e
        | none => Except.ok []
      sleeps := []
      attempts := n }
  | delay :: rest, n, _ =>
    let slept : List Nat := if delay ≠ 0 then [delay] else []
    match oracle n with
    | .ok items => { result := Except.ok items, sleeps := slept, attempts := n + 1 }
    | .fail e =>
      if isRetried e then
        let next := runAttempts oracle rest (n + 1) (some e)
        { result := next.result, sleeps := slept ++ next.sleeps,
          attempts := next.attempts }
      else { result := Except.error e, sleeps := slept, attempts := n + 1 }

/-- `get_video_items` for one batch, abstracted over the network oracle. -/
def get_video_items (oracle : Nat → AttemptOutcome) : FetchRun :=
  runAttempts oracle backoff 0 none

/-! ### The collector run (`fetch_stats.main` and its `__main__` guard) -/

/-- Sequential batch fetching of `main`'s loop: rows of successful batches
are accumulated in memory; the first raised error aborts the whole
accumulation. -/
def collectRows : List (Except FetchErr (List SnapRow)) →
    Except FetchErr (List SnapRow)
  | [] => Except.ok []
  | Except.error e :: _ => Except.error e
  | Except.ok rs :: rest =>
    match collectRows rest with
    | Except.ok acc => Except.ok (rs ++ acc)
    | Except.error e => Except.error e

/-- Observable result of one collector run: the on-disk table afterwards,
the process exit code, and how many times the table file was written. -/
structure CollectorRun where
  table : List SnapRow
  exitCode : Nat
  writes : Nat
deriving DecidableEq, Repr

/-- `fetch_stats.main` under the `__main__` guard: batches are fetched one
by one; only after every batch succeeded is the merged frame written, once;
any raised error is caught by the guard, which logs and exits 1, leaving
the table file untouched. -/
def runCollector (batches : List (Except FetchErr (List SnapRow)))
    (table : List SnapRow) : CollectorRun :=
  match collectRows batches with
  | Except.error _ => { table := table, exitCode := 1, writes := 0 }
  | Except.ok rows => { table := mergeHistory table rows, exitCode := 0, writes := 1 }

/-! ### Support lemmas for the claims -/

/-- The spec's worked example: one video, snapshot views 100, 150, 140, 200
on four consecutive days. -/
def histEx : List SnapRow :=
  [⟨"X", 1, 100, 0, 0⟩, ⟨"X", 2, 150, 0, 0⟩,
   ⟨"X", 3, 140, 0, 0⟩, ⟨"X", 4, 200, 0, 0⟩]

theorem diffValsAux_length (prev : Int) :
    ∀ l : List Int, (diffValsAux prev l).length = l.length
  | [] => rfl
  | v :: rest => by
    rw [diffValsAux, List.length_cons, List.length_cons,
      diffValsAux_length v rest]

theorem deltaSeries_length (l : List Int) : (deltaSeries l).length = l.length := by
  rw [deltaSeries, clampNonneg, List.length_map]
  cases l with
  | nil => rfl
  | cons v rest =>
    rw [diffFillZero, List.length_cons, List.length_cons,
      diffValsAux_length v rest]

theorem deltaSeries_nonneg (l : List Int) : ∀ x ∈ deltaSeries l, 0 ≤ x := by
  intro x hx
  rcases List.mem_map.mp hx with ⟨y, -, he⟩
  rw [← he]
  by_cases hy : y < 0
  · rw [if_pos hy]
  · rw [if_neg hy]
    exact le_of_not_lt hy

theorem deltaSeries_head {l : List Int} (h : l ≠ []) :
    (deltaSeries l).head? = some 0 := by
  cases l with
  | nil => exact absurd rfl h
  | cons v rest => rfl

theorem attachIncAux_length (m : SnapRow → Int) :
    ∀ (l : List SnapRow) (prev : SnapRow),
      (attachIncAux m prev l).length = l.length
  | [], _ => rfl
  | r :: rest, prev => by
    rw [attachIncAux, List.length_cons, List.length_cons,
      attachIncAux_length m rest r]

theorem attachInc_length (m : SnapRow → Int) (l : List SnapRow) :
    (attachInc m l).length = l.length := by
  cases l with
  | nil => rfl
  | cons r rest =>
    rw [attachInc, List.length_cons, List.length_cons,
      attachIncAux_length m rest r]

theorem attachIncAux_nonneg (m : SnapRow → Int) :
    ∀ (l : List SnapRow) (prev : SnapRow) (p : SnapRow × Int),
      p ∈ attachIncAux m prev l → 0 ≤ p.2
  | [], _, _, h => by cases h
  | r :: rest, prev, p, h => by
    rcases List.mem_cons.mp h with he | hm
    · rw [he]
      by_cases hv : r.video_id = prev.video_id
      · rw [if_pos hv]
        exact le_max_right _ _
      · rw [if_neg hv]
    · exact attachIncAux_nonneg m rest r p hm

theorem attachInc_nonneg (m : SnapRow → Int) (l : List SnapRow) :
    ∀ p ∈ attachInc m l, 0 ≤ p.2 := by
  intro p hp
  cases l with
  | nil => cases hp
  | cons r rest =>
    rcases List.mem_cons.mp hp with he | hm
    · rw [he]
    · exact attachIncAux_nonneg m rest r p hm

theorem collectRows_error_of_mem :
    ∀ (batches : List (Except FetchErr (List SnapRow))) (e : FetchErr),
      Except.error e ∈ batches → ∃ e', collectRows batches = Except.error e'
  | [], e, h => absurd h (List.not_mem_nil _)
  | b :: rest, e, h => by
    cases b with
    | error e0 => exact ⟨e0, rfl⟩
    | ok rs =>
      rcases List.mem_cons.mp h with he | hm
      · cases he
      · rcases collectRows_error_of_mem rest e hm with ⟨e', he'⟩
        refine ⟨e', ?_⟩
        rw [collectRows, he']

theorem collectRows_ok_of_all :
    ∀ batches : List (Except FetchErr (List SnapRow)),
      (∀ b ∈ batches, ∃ rs, b = Except.ok rs) →
      ∃ rows, collectRows batches = Except.ok rows
  | [], _ => ⟨[], rfl⟩
  | b :: rest, h => by
    rcases h b (List.mem_cons_self _ _) with ⟨rs, hb⟩
    subst hb
    rcases collectRows_ok_of_all rest
        (fun x hx => h x (List.mem_cons_of_mem _ hx)) with ⟨rows, hr⟩
    refine ⟨rs ++ rows, ?_⟩
    rw [collectRows, hr]

/-! ### The claims -/

/-- C1, counterexample: for the single-video history
`[day1:100, day2:150, day3:140, day4:200]` (views) and the closed range
`[2, 4]`, the per-video incremental total reported in the comparison
summary is `60` and its delta series is `[0, 0, 60]` — the first in-range
day's delta is zeroed because `cmp` differences after filtering to the
range — whereas the sum of the clamped deltas of the full history falling
in the range (the value the claim asserts for every reported total) is
`110`.  So the claim, read over the comparison-summary totals its sources
cite, is false. -/
theorem interval_diff_first_c1_counterexample :
    (summaryRows .incremental (fun r => r.views) (fun _ => true)
        (fun _ => true) 2 4 histEx).map (fun s => s.metric_val) = [60] ∧
    (cmpValues .incremental (fun r => r.views) (fun _ => true)
        (fun _ => true) 2 4 histEx).map (fun p => p.2) = [0, 0, 60] ∧
    specRangeTotal (fun r => r.views) "X" (fun _ => true) 2 4 histEx = 110 ∧
    ((60 : Int) = 110 → False) := by decide

/-- C1 (amended): the top-KPI reported total increment (`interval_df`)
satisfies the claim: for every history obeying the table invariant (at
most one row per `(video_id, date)`), every selection and every closed
range, the reported total equals the sum over the videos of the per-day
clamped deltas whose date falls in the range, the deltas being computed by
first-differencing each video's full history and only then filtering — so
there the first in-range day's delta is its true difference from the prior
out-of-range snapshot.  The per-video incremental totals of the comparison
summary differ: they difference after filtering (see the counterexample). -/
theorem interval_total_diff_first_c1 (m : SnapRow → Int) (sel : String → Bool)
    (startD endD : Nat) (df : List SnapRow)
    (hk : df.Pairwise (fun a b => rowKey a ≠ rowKey b)) :
    intervalTotal m sel startD endD df =
      (((base_df sel df).map (fun r => r.video_id)).dedup.map
        (fun v => specRangeTotal m v sel startD endD df)).sum :=
  intervalTotal_eq_specSum m sel startD endD df hk

theorem interval_total_diff_first_c1_witness :
    intervalTotal (fun r => r.views) (fun _ => true) 2 4 histEx =
      (((base_df (fun _ => true) histEx).map (fun r => r.video_id)).dedup.map
        (fun v => specRangeTotal (fun r => r.views) v (fun _ => true) 2 4
          histEx)).sum ∧
    intervalTotal (fun r => r.views) (fun _ => true) 2 4 histEx = 110 :=
  ⟨interval_total_diff_first_c1 (fun r => r.views) (fun _ => true) 2 4 histEx
      (by decide),
    by decide⟩

/-- C2: for a video with snapshots `[day1:100, day2:150, day3:140,
day4:200]` (views) and the selected range `[day2, day4]`: the full-history
increment column restricted to the range is `[50, 0, 60]` (day3's apparent
drop clamps to 0) and the reported KPI interval total is `110`; the
comparison summary in cumulative mode over the same range reports total
`200` — the value at the last in-range point, not a sum — with peak `200`. -/
theorem interval_example_c2 :
    (interval_df (fun r => r.views) (fun _ => true) 2 4 histEx).map
        (fun p => p.2) = [50, 0, 60] ∧
    intervalTotal (fun r => r.views) (fun _ => true) 2 4 histEx = 110 ∧
    summaryRows .cumulative (fun r => r.views) (fun _ => true) (fun _ => true)
        2 4 histEx = [⟨"X", 2, 4, 200, 200⟩] := by decide

/-- C3, counterexample: when the historical table starts empty the code
skips the sort-and-dedupe and writes the fetched rows as they came, so
running the merge twice with the same rows does not reproduce the same
table — the second run sorts it.  With rows for videos `"b"` and `"a"`
fetched in that order, once gives `[b, a]`, twice gives `[a, b]`. -/
theorem merge_rerun_c3_counterexample :
    mergeHistory (mergeHistory [] [⟨"b", 1, 2, 0, 0⟩, ⟨"a", 1, 1, 0, 0⟩])
        [⟨"b", 1, 2, 0, 0⟩, ⟨"a", 1, 1, 0, 0⟩] ≠
      mergeHistory [] [⟨"b", 1, 2, 0, 0⟩, ⟨"a", 1, 1, 0, 0⟩] := by decide

/-- C3 (amended): whenever the merge actually concatenates, sorts and
dedupes — i.e. on every run against a non-empty table, and for run-produced
row sets with at most one row per key — the claim holds: (a) the merged
table has at most one row per `(video_id, date)`; (b) after two runs the
later run's row is the only one for its key; (c) re-running the merge with
identical rows against a non-empty table yields literally the same table;
(d) from an empty table the re-run yields the same rows only up to order
(the first write is unsorted, the second sorted). -/
theorem merge_semantics_c3 :
    (∀ oldRows newRows : List SnapRow,
        newRows.Pairwise (fun a b => rowKey a ≠ rowKey b) →
        (mergeHistory oldRows newRows).Pairwise
          (fun a b => rowKey a ≠ rowKey b)) ∧
    (∀ (t n1 n2 : List SnapRow) (r2 : SnapRow) (k : String × Nat),
        n2.filter (hasKeyB k) = [r2] →
        (mergeHistory (mergeHistory t n1) n2).filter (hasKeyB k) = [r2]) ∧
    (∀ t n : List SnapRow, t ≠ [] →
        mergeHistory (mergeHistory t n) n = mergeHistory t n) ∧
    (∀ n : List SnapRow, n.Pairwise (fun a b => rowKey a ≠ rowKey b) →
        List.Perm (mergeHistory (mergeHistory [] n) n) (mergeHistory [] n)) :=
  ⟨mergeHistory_nodupKeys, mergeHistory_lastWriteWins, mergeHistory_idem,
    mergeHistory_empty_rerun_perm⟩

theorem merge_semantics_c3_witness :
    (mergeHistory (mergeHistory [⟨"a", 1, 10, 0, 0⟩] [⟨"x", 2, 5, 0, 0⟩])
        [⟨"x", 2, 8, 0, 0⟩]).filter (hasKeyB ("x", 2)) = [⟨"x", 2, 8, 0, 0⟩] ∧
    mergeHistory
        (mergeHistory [⟨"a", 1, 10, 0, 0⟩] [⟨"x", 2, 5, 0, 0⟩])
        [⟨"x", 2, 5, 0, 0⟩] =
      mergeHistory [⟨"a", 1, 10, 0, 0⟩] [⟨"x", 2, 5, 0, 0⟩] ∧
    (mergeHistory [⟨"a", 1, 10, 0, 0⟩] [⟨"x", 2, 8, 0, 0⟩]).Pairwise
      (fun a b => rowKey a ≠ rowKey b) :=
  ⟨merge_semantics_c3.2.1 [⟨"a", 1, 10, 0, 0⟩] [⟨"x", 2, 5, 0, 0⟩]
      [⟨"x", 2, 8, 0, 0⟩] ⟨"x", 2, 8, 0, 0⟩ ("x", 2) (by decide),
    merge_semantics_c3.2.2.1 [⟨"a", 1, 10, 0, 0⟩] [⟨"x", 2, 5, 0, 0⟩]
      (by decide),
    merge_semantics_c3.1 [⟨"a", 1, 10, 0, 0⟩] [⟨"x", 2, 8, 0, 0⟩] (by decide)⟩

/-- C4: for every value series of a video's ordered-by-date snapshots, and
likewise for every sorted multi-video frame, the computed clamped delta
series has the same length as the input, every entry is ≥ 0 even when the
counters decrease, and the first entry is 0 (no prior baseline). -/
theorem delta_series_invariants_c4 :
    (∀ l : List Int,
        (deltaSeries l).length = l.length ∧
        (∀ x ∈ deltaSeries l, 0 ≤ x) ∧
        (l ≠ [] → (deltaSeries l).head? = some 0)) ∧
    (∀ (m : SnapRow → Int) (frame : List SnapRow),
        (attachInc m frame).length = frame.length ∧
        (∀ p ∈ attachInc m frame, 0 ≤ p.2) ∧
        (frame ≠ [] →
          ((attachInc m frame).map (fun p => p.2)).head? = some 0)) := by
  constructor
  · intro l
    refine ⟨deltaSeries_length l, deltaSeries_nonneg l, fun h => deltaSeries_head h⟩
  · intro m frame
    refine ⟨attachInc_length m frame, attachInc_nonneg m frame, fun h => ?_⟩
    cases frame with
    | nil => exact absurd rfl h
    | cons r rest => rfl

theorem delta_series_invariants_c4_witness :
    (deltaSeries [100, 150, 140, 200]).length = 4 ∧
    (deltaSeries [100, 150, 140, 200]).head? = some 0 :=
  ⟨((delta_series_invariants_c4.1 [100, 150, 140, 200]).1).trans rfl,
    (delta_series_invariants_c4.1 [100, 150, 140, 200]).2.2
      (by decide)⟩

/-- C5: a batch request is attempted up to 3 times, sleeping 0s, 2s and 5s
before the respective attempts: three transient failures exhaust the
schedule and raise the LAST error after the sleeps `[2, 5]`; a 4xx/5xx
`HTTPError` is raised immediately on its first occurrence, with no further
attempt; a success after `j` transient failures returns the items on
attempt `j + 1`, having slept exactly the nonzero delays of the schedule's
first `j + 1` entries. -/
theorem retry_policy_c5 :
    (∀ (oracle : Nat → AttemptOutcome) (e0 e1 e2 : FetchErr),
        oracle 0 = .fail e0 → oracle 1 = .fail e1 → oracle 2 = .fail e2 →
        isRetried e0 = true → isRetried e1 = true → isRetried e2 = true →
        get_video_items oracle =
          { result := Except.error e2, sleeps := [2, 5], attempts := 3 }) ∧
    (∀ (oracle : Nat → AttemptOutcome) (j status : Nat), j < 3 →
        (∀ i, i < j → ∃ e, oracle i = .fail e ∧ isRetried e = true) →
        oracle j = .fail (.httpError status) →
        (get_video_items oracle).result = Except.error (.httpError status) ∧
        (get_video_items oracle).attempts = j + 1) ∧
    (∀ (oracle : Nat → AttemptOutcome) (j : Nat) (items : List String),
        j < 3 →
        (∀ i, i < j → ∃ e, oracle i = .fail e ∧ isRetried e = true) →
        oracle j = .ok items →
        (get_video_items oracle).result = Except.ok items ∧
        (get_video_items oracle).attempts = j + 1 ∧
        (get_video_items oracle).sleeps =
          (backoff.take (j + 1)).filter (fun d => d ≠ 0)) := by
  refine ⟨?_, ?_, ?_⟩
  · intro oracle e0 e1 e2 h0 h1 h2 hr0 hr1 hr2
    simp [get_video_items, backoff, runAttempts, h0, h1, h2, hr0, hr1, hr2]
  · intro oracle j status hj hprev hfail
    have hh : isRetried (FetchErr.httpError status) = false := rfl
    interval_cases j
    · refine ⟨?_, ?_⟩ <;>
        simp [get_video_items, backoff, runAttempts, hfail, hh]
    · obtain ⟨e0, h0, hr0⟩ := hprev 0 (by omega)
      refine ⟨?_, ?_⟩ <;>
        simp [get_video_items, backoff, runAttempts, h0, hr0, hfail, hh]
    · obtain ⟨e0, h0, hr0⟩ := hprev 0 (by omega)
      obtain ⟨e1, h1, hr1⟩ := hprev 1 (by omega)
      refine ⟨?_, ?_⟩ <;>
        simp [get_video_items, backoff, runAttempts, h0, hr0, h1, hr1, hfail,
          hh]
  · intro oracle j items hj hprev hok
    interval_cases j
    · refine ⟨?_, ?_, ?_⟩ <;>
        simp [get_video_items, backoff, runAttempts, hok]
    · obtain ⟨e0, h0, hr0⟩ := hprev 0 (by omega)
      refine ⟨?_, ?_, ?_⟩ <;>
        simp [get_video_items, backoff, runAttempts, h0, hr0, hok]
    · obtain ⟨e0, h0, hr0⟩ := hprev 0 (by omega)
      obtain ⟨e1, h1, hr1⟩ := hprev 1 (by omega)
      refine ⟨?_, ?_, ?_⟩ <;>
        simp [get_video_items, backoff, runAttempts, h0, hr0, h1, hr1, hok]

theorem retry_policy_c5_witness :
    (get_video_items (fun n => if n = 0 then .fail .timeout
        else .ok ["itemA"])).result = Except.ok ["itemA"] ∧
    (get_video_items (fun n => if n = 0 then .fail .timeout
        else .ok ["itemA"])).attempts = 2 ∧
    (get_video_items (fun n => if n = 0 then .fail .timeout
        else .ok ["itemA"])).sleeps = [2] := by
  have h := retry_policy_c5.2.2
    (fun n => if n = 0 then .fail .timeout else .ok ["itemA"]) 1 ["itemA"]
    (by omega)
    (by
      intro i hi
      interval_cases i
      exact ⟨.timeout, rfl, rfl⟩)
    rfl
  exact ⟨h.1, h.2.1, h.2.2.trans (by decide)⟩

/-- C6: the identifier extractor maps a `youtu.be` link, a `watch?v=` link,
a `shorts` link and the bare 11-character string all to `abcDEF12345`, and
an unrelated string to none; in general the bare full match wins first,
otherwise the patterns `v=`, `youtu.be/`, `shorts/`, `embed/` are tried in
that order and the first that matches anywhere in the string wins, and a
string matching none of them yields none. -/
theorem extract_video_id_c6 :
    utils_extract_video_id "https://youtu.be/abcDEF12345" =
      some "abcDEF12345" ∧
    utils_extract_video_id "https://www.youtube.com/watch?v=abcDEF12345" =
      some "abcDEF12345" ∧
    utils_extract_video_id "https://www.youtube.com/shorts/abcDEF12345" =
      some "abcDEF12345" ∧
    utils_extract_video_id "abcDEF12345" = some "abcDEF12345" ∧
    utils_extract_video_id "not a video" = none ∧
    (∀ s : String, isBareId (pyStrip s.data) = true →
        utils_extract_video_id s = some (String.mk (pyStrip s.data))) ∧
    (∀ (s : String) (cap : List Char),
        isBareId (pyStrip s.data) = false →
        searchCapture patV (pyStrip s.data) = some cap →
        utils_extract_video_id s = some (String.mk cap)) ∧
    (∀ (s : String) (cap : List Char),
        isBareId (pyStrip s.data) = false →
        searchCapture patV (pyStrip s.data) = none →
        searchCapture patYoutuBe (pyStrip s.data) = some cap →
        utils_extract_video_id s = some (String.mk cap)) ∧
    (∀ (s : String) (cap : List Char),
        isBareId (pyStrip s.data) = false →
        searchCapture patV (pyStrip s.data) = none →
        searchCapture patYoutuBe (pyStrip s.data) = none →
        searchCapture patShorts (pyStrip s.data) = some cap →
        utils_extract_video_id s = some (String.mk cap)) ∧
    (∀ (s : String) (cap : List Char),
        isBareId (pyStrip s.data) = false →
        searchCapture patV (pyStrip s.data) = none →
        searchCapture patYoutuBe (pyStrip s.data) = none →
        searchCapture patShorts (pyStrip s.data) = none →
        searchCapture patEmbed (pyStrip s.data) = some cap →
        utils_extract_video_id s = some (String.mk cap)) ∧
    (∀ s : String, isBareId (pyStrip s.data) = false →
        (∀ lit ∈ ytPatternLits, searchCapture lit (pyStrip s.data) = none) →
        utils_extract_video_id s = none) := by
  refine ⟨by decide, by decide, by decide, by decide, by decide,
    ?_, ?_, ?_, ?_, ?_, ?_⟩
  · intro s hb
    simp [utils_extract_video_id, hb]
  · intro s cap hb h1
    simp [utils_extract_video_id, hb, ytPatternLits, List.findSome?, h1]
  · intro s cap hb h1 h2
    simp [utils_extract_video_id, hb, ytPatternLits, List.findSome?, h1, h2]
  · intro s cap hb h1 h2 h3
    simp [utils_extract_video_id, hb, ytPatternLits, List.findSome?, h1, h2, h3]
  · intro s cap hb h1 h2 h3 h4
    simp [utils_extract_video_id, hb, ytPatternLits, List.findSome?,
      h1, h2, h3, h4]
  · intro s hb hnone
    have h1 := hnone patV (by decide)
    have h2 := hnone patYoutuBe (by decide)
    have h3 := hnone patShorts (by decide)
    have h4 := hnone patEmbed (by decide)
    simp [utils_extract_video_id, hb, ytPatternLits, List.findSome?,
      h1, h2, h3, h4]

theorem extract_video_id_c6_witness :
    utils_extract_video_id "https://example.com/page" = none := by
  have h := extract_video_id_c6.2.2.2.2.2.2.2.2.2.2
    "https://example.com/page" (by decide)
    (by
      intro lit hlit
      fin_cases hlit <;> decide)
  exact h

/-- C9: the two implementations of `extract_video_id` agree on every string
input; the `fetch_stats` one additionally tolerates a null input, mapping
it to none, while the `utils` one is only defined on strings. -/
theorem extract_video_id_equiv_c9 :
    (∀ s : String,
        fetch_extract_video_id (some s) = utils_extract_video_id s) ∧
    fetch_extract_video_id none = none :=
  ⟨fun _ => rfl, by decide⟩

/-- C7: the historical table is written exactly once, at the end of a
collector run, from the fully assembled merged frame: a run whose batches
all succeed exits 0 after a single write of the merged frame; a run in
which any batch fetch raises exits 1 with zero writes, leaving the table
exactly as it was; and in every run the write count is at most one, a run
that does not write leaves the table unchanged and exits non-zero. -/
theorem collector_atomicity_c7 :
    (∀ (batches : List (Except FetchErr (List SnapRow)))
        (table : List SnapRow) (e : FetchErr),
        Except.error e ∈ batches →
        runCollector batches table =
          { table := table, exitCode := 1, writes := 0 }) ∧
    (∀ (batches : List (Except FetchErr (List SnapRow)))
        (table : List SnapRow),
        (∀ b ∈ batches, ∃ rs, b = Except.ok rs) →
        ∃ rows, collectRows batches = Except.ok rows ∧
          runCollector batches table =
            { table := mergeHistory table rows, exitCode := 0, writes := 1 }) ∧
    (∀ (batches : List (Except FetchErr (List SnapRow)))
        (table : List SnapRow),
        (runCollector batches table).writes ≤ 1 ∧
        ((runCollector batches table).writes = 0 →
          (runCollector batches table).table = table ∧
          (runCollector batches table).exitCode = 1)) := by
  refine ⟨?_, ?_, ?_⟩
  · intro batches table e hmem
    rcases collectRows_error_of_mem batches e hmem with ⟨e', he'⟩
    rw [runCollector, he']
  · intro batches table hall
    rcases collectRows_ok_of_all batches hall with ⟨rows, hr⟩
    refine ⟨rows, hr, ?_⟩
    rw [runCollector, hr]
  · intro batches table
    rcases hc : collectRows batches with e | rows
    · simp [runCollector, hc]
    · simp [runCollector, hc]

theorem collector_atomicity_c7_witness :
    runCollector [Except.ok [⟨"x", 2, 5, 0, 0⟩], Except.error .timeout]
        [⟨"a", 1, 10, 0, 0⟩] =
      { table := [⟨"a", 1, 10, 0, 0⟩], exitCode := 1, writes := 0 } :=
  collector_atomicity_c7.1
    [Except.ok [⟨"x", 2, 5, 0, 0⟩], Except.error .timeout]
    [⟨"a", 1, 10, 0, 0⟩] .timeout (by decide)

/-- C8: a video with zero snapshot rows dated inside the selected closed
range produces no row in the comparison summary, for every mode, metric,
selection and comparison subset — absent videos are excluded, not
zero-filled. -/
theorem summary_excludes_empty_c8 (mode : DisplayMode) (m : SnapRow → Int)
    (cmpSel sel : String → Bool) (startD endD : Nat) (df : List SnapRow)
    (v : String)
    (h : ∀ r ∈ df, r.video_id = v → ¬(startD ≤ r.date ∧ r.date ≤ endD)) :
    v ∉ (summaryRows mode m cmpSel sel startD endD df).map
      (fun s => s.video_id) := by
  intro hmem
  rcases List.mem_map.mp hmem with ⟨srow, hs, he⟩
  rw [summaryRows] at hs
  rcases List.mem_map.mp hs with ⟨v', hv', he'⟩
  have hv'v : v' = v := by
    rw [← he, ← he']
  subst hv'v
  rw [summaryVids] at hv'
  rcases List.mem_map.mp (List.mem_dedup.mp hv') with ⟨p, hp, hpe⟩
  have hf := mem_cmpFrame (mem_cmpValues_fst hp)
  exact h p.1 hf.1 hpe hf.2

theorem summary_excludes_empty_c8_witness :
    "Y" ∉ (summaryRows .incremental (fun r => r.views) (fun _ => true)
      (fun _ => true) 2 4 histEx).map (fun s => s.video_id) :=
  summary_excludes_empty_c8 .incremental (fun r => r.views) (fun _ => true)
    (fun _ => true) 2 4 histEx "Y" (by decide)

/-- C10: `coerce_date_range` always yields an ordered pair: whatever the
picked value (2-tuple, 1-tuple, other sequence, or single date, with
possibly empty slots) and whatever fallback pair with
`fallback_start ≤ fallback_end`, the returned `(start, end)` satisfies
`start ≤ end`; a picked pair with start after end is swapped rather than
rejected, and missing values fall back to the given defaults. -/
theorem coerce_date_range_c10 :
    (∀ (picked : PickedDates) (fs fe : Nat), fs ≤ fe →
        (coerce_date_range picked fs fe).1 ≤
          (coerce_date_range picked fs fe).2) ∧
    (∀ s e fs fe : Nat, e < s →
        coerce_date_range (.seq [some s, some e]) fs fe = (e, s)) ∧
    (∀ fs fe : Nat, fs ≤ fe →
        coerce_date_range (.seq []) fs fe = (fs, fe) ∧
        coerce_date_range (.single none) fs fe = (fs, fe) ∧
        coerce_date_range (.seq [none, none]) fs fe = (fs, fe)) := by
  have key : ∀ s e : Nat,
      (if e < s then (e, s) else (s, e)).1 ≤
        (if e < s then (e, s) else (s, e)).2 := by
    intro s e
    split
    · next hlt => exact Nat.le_of_lt hlt
    · next hlt => exact Nat.le_of_not_lt hlt
  refine ⟨?_, ?_, ?_⟩
  · intro picked fs fe _
    rcases picked with l | d
    · rcases l with _ | ⟨a, _ | ⟨b, _ | _⟩⟩ <;> exact key _ _
    · exact key _ _
  · intro s e fs fe hlt
    show (if e < s then (e, s) else (s, e)) = (e, s)
    rw [if_pos hlt]
  · intro fs fe hle
    refine ⟨?_, ?_, ?_⟩ <;>
      · show (if fe < fs then (fe, fs) else (fs, fe)) = (fs, fe)
        rw [if_neg (Nat.not_lt.mpr hle)]

theorem coerce_date_range_c10_witness :
    (coerce_date_range (.seq [some 9, some 3]) 1 5).1 ≤
      (coerce_date_range (.seq [some 9, some 3]) 1 5).2 ∧
    coerce_date_range (.seq [some 9, some 3]) 1 5 = (3, 9) ∧
    coerce_date_range (.single none) 1 5 = (1, 5) :=
  ⟨coerce_date_range_c10.1 (.seq [some 9, some 3]) 1 5 (by decide),
    coerce_date_range_c10.2.1 9 3 1 5 (by decide),
    (coerce_date_range_c10.2.2 1 5 (by decide)).2.1⟩

end YtTracker
